import Mathlib

/-!
Verification development for the MNF transform pipeline (src/MNF.py).

The model follows the source closely:
* numpy float scalars are modelled as `Option ℝ`: `some x` is a finite value,
  `none` stands for a non-finite float (NaN or an infinity).  Exact real
  arithmetic replaces binary floating point; dtype is tracked as a tag.
* numpy ndarrays are a shape list together with an index function (`Arr`).
* The whitening step (pysptools `Whiten`) and the PCA decomposition (sklearn
  `PCA`) are external collaborators.  Modelled from the spec: the whitener is a
  parameter `W : Arr → Arr` and the decomposer a parameter `P : PCAModel`
  producing component scores and the explained-variance-ratio vector; the
  contracts the spec assigns to them (shape preservation, ratios summing to 1,
  one ratio per band) appear as hypotheses of the theorems that need them.
* Python slice semantics (`mnf[:,:,:n]`, clamping, booleans as indices) and the
  argparse default handling of the command-line driver are embedded explicitly.
-/

namespace MNF

/-- Numeric dtype tag of an ndarray (value quantization is not modelled). -/
inductive Dtype where
  | float32 : Dtype
  | float64 : Dtype
  | int64 : Dtype
deriving DecidableEq

/-- A numpy float scalar: `some x` is a finite value, `none` a non-finite one. -/
abbrev F := Option ℝ

/-- Addition of numpy float scalars; non-finite operands propagate. -/
def fAdd : F → F → F
  | some a, some b => some (a + b)
  | _, _ => none

/-- Multiplication of numpy float scalars; non-finite operands propagate. -/
def fMul : F → F → F
  | some a, some b => some (a * b)
  | _, _ => none

/-- Division of numpy float scalars.  Division by zero produces a non-finite
result (NaN or an infinity), modelled as `none`. -/
noncomputable def fDiv : F → F → F
  | some a, some b => if b = 0 then none else some (a / b)
  | _, _ => none

/-- Square root of a numpy float scalar; negative arguments give NaN. -/
noncomputable def fSqrt : F → F
  | some a => if a < 0 then none else some (Real.sqrt a)
  | none => none

/-- A numpy ndarray: a shape, a dtype tag, and an index function.  Only indices
componentwise below the shape are meaningful. -/
structure Arr where
  shape : List ℕ
  dtype : Dtype
  data : List ℕ → F

/-- The cast `X.astype` of line 79; in this model only the dtype tag changes. -/
def astype (d : Dtype) (X : Arr) : Arr := Arr.mk X.shape d X.data

/-- Sum of squares of the first `n` entries of a 1-D slice, modelling
`np.sum(r**2, 0)` from line 84. -/
def npSumSq (r : ℕ → F) : ℕ → F
  | 0 => some 0
  | Nat.succ k => fAdd (fMul (r k) (r k)) (npSumSq r k)

/-- The inner `norm` function of lines 83-85: `r / np.sqrt(np.sum(r**2, 0))`,
read off at band `b` of the slice `r` of length `n`. -/
noncomputable def normPix (n : ℕ) (r : ℕ → F) (b : ℕ) : F :=
  fDiv (r b) (fSqrt (npSumSq r n))

/-- Model of `np.apply_along_axis g axis X`: every 1-D slice of `X` along
`axis` is rewritten by `g`, which receives the slice length, the slice, and the
position along the axis. -/
noncomputable def applyAlongAxis (g : ℕ → (ℕ → F) → ℕ → F) (axis : ℕ) (X : Arr) : Arr :=
  Arr.mk X.shape X.dtype
    (fun idx => g (X.shape.getD axis 0) (fun k => X.data (idx.set axis k)) (idx.getD axis 0))

/-- The brightness-normalization stage of lines 82-90: when the flag is set,
apply `norm` along axis 2 of a 3-D array and along axis 0 of a 2-D array
(two sequential shape tests, as in the source); otherwise pass `X` through. -/
noncomputable def brightNormStage (BN : Bool) (X : Arr) : Arr :=
  if BN = true then
    let X1 := if X.shape.length = 3 then applyAlongAxis normPix 2 X else X
    if X1.shape.length = 2 then applyAlongAxis normPix 0 X1 else X1
  else X

/-- Row-major flat index of a multi-index `idx` under shape `shape`. -/
def flatIdx : List ℕ → List ℕ → ℕ
  | _ :: ds, i :: is => i * ds.prod + flatIdx ds is
  | _, _ => 0

/-- Multi-index under `shape` of a row-major flat position `k`. -/
def unflat : List ℕ → ℕ → List ℕ
  | [], _ => []
  | _ :: ds, k => (k / ds.prod) :: unflat ds (k % ds.prod)

/-- Model of `np.reshape X s`: fails when the element counts disagree,
otherwise relabels the same row-major data under the new shape. -/
def reshape (s : List ℕ) (X : Arr) : Option Arr :=
  if X.shape.prod = s.prod then
    some (Arr.mk s X.dtype (fun idx => X.data (unflat X.shape (flatIdx s idx))))
  else none

/-- Destructure a shape list as exactly three dimensions, modelling the tuple
unpacking `h, w, numBands = wdata.shape` of line 94. -/
def shape3 : List ℕ → Option (ℕ × ℕ × ℕ)
  | [h, w2, nb] => some (h, w2, nb)
  | _ => none

/-- Python slice semantics for the band count of `x[:, :, :stop]`: a negative
stop counts from the end (clamped at 0), a non-negative stop is clamped at the
axis length.  No out-of-range value is an error. -/
def pySliceCount (len : ℕ) (stop : ℤ) : ℕ :=
  if stop < 0 then ((len : ℤ) + stop).toNat else min stop.toNat len

/-- The truncation `mnf[:, :, :stop]` of line 99 on a 3-D array. -/
def slice3 (X : Arr) (stop : ℤ) : Arr :=
  match shape3 X.shape with
  | some s => Arr.mk [s.1, s.2.1, pySliceCount s.2.2 stop] X.dtype X.data
  | none => X

/-- A Python value as it can reach `n_components`: an int, a bool (argparse
hands the driver `False` when `-c` is absent), or `None`. -/
inductive PyVal where
  | int : ℤ → PyVal
  | bool : Bool → PyVal
  | pynone : PyVal
deriving DecidableEq

/-- Coercion of a Python value used as a slice index; `False` indexes as 0. -/
def toIndex : PyVal → ℤ
  | PyVal.int n => n
  | PyVal.bool b => if b then 1 else 0
  | PyVal.pynone => 0

/-- Modelled from the spec: the sklearn `PCA()` collaborator of lines 96-97, a
decomposer returning component scores (`fit_transform`) and the
explained-variance-ratio vector of the full decomposition. -/
structure PCAModel where
  fit_transform : Arr → Arr
  explained_variance_ratio_ : Arr → List ℚ

/-- Round-half-to-even to an integer, as used by `np.round`. -/
def roundHalfEven (x : ℚ) : ℤ :=
  if x - ⌊x⌋ < 1/2 then ⌊x⌋
  else if 1/2 < x - ⌊x⌋ then ⌊x⌋ + 1
  else if ⌊x⌋ % 2 = 0 then ⌊x⌋ else ⌊x⌋ + 1

/-- Model of `np.round(x, decimals=4)` in exact arithmetic. -/
def npRound4 (x : ℚ) : ℚ := (roundHalfEven (x * 10 ^ 4) : ℚ) / 10 ^ 4

/-- Running sums of a list starting from an accumulator. -/
def cumsumFrom (acc : ℚ) : List ℚ → List ℚ
  | [] => []
  | x :: xs => (acc + x) :: cumsumFrom (acc + x) xs

/-- Model of `np.cumsum`. -/
def cumsum (l : List ℚ) : List ℚ := cumsumFrom 0 l

/-- The default of `n_components` in `MNF.__init__` (line 73). -/
def init_n_components_default : PyVal := PyVal.int 1

/-- The `MNF.transform` method of lines 78-101, parameterized by the external
whitener `W` (pysptools `Whiten().apply`) and decomposer `P` (sklearn `PCA`):
cast to float32, optionally brightness-normalize, whiten, read `X.shape[2]`
(an IndexError — `none` — when the array is not 3-D), unpack the whitened
shape as three dimensions, reshape to pixels times bands, decompose, reshape
back, truncate by slicing, and pair with the cumulative rounded
explained-variance percentages. -/
noncomputable def transform (W : Arr → Arr) (P : PCAModel) (n_components : PyVal)
    (BN : Bool) (X0 : Arr) : Option (Arr × List ℚ) :=
  let X := brightNormStage BN (astype Dtype.float32 X0)
  let wdata := W X
  (X.shape.get? 2).bind (fun _ =>
    (shape3 wdata.shape).bind (fun s =>
      (reshape [s.2.1 * s.1, s.2.2] wdata).bind (fun X2 =>
        (reshape [s.1, s.2.1, s.2.2] (P.fit_transform X2)).map (fun mnf1 =>
          (slice3 mnf1 (toIndex n_components),
           cumsum ((P.explained_variance_ratio_ X2).map (fun r => npRound4 r * 100)))))))

/-- The argparse value of `args["components"]` (line 126): the parsed int when
`-c` is supplied, else the declared default `False`. -/
def cliComponentsArg : Option ℤ → PyVal
  | some c => PyVal.int c
  | none => PyVal.bool false

/-- The driver logic of lines 145-148: `n_components` is the argument when it
`is not None`, otherwise the input band count. -/
def cliNComponents (given : Option ℤ) (inputBands : ℕ) : PyVal :=
  if cliComponentsArg given = PyVal.pynone then PyVal.int inputBands
  else cliComponentsArg given

/-- Identity whitener instance, used to instantiate the external collaborator
in concrete evaluations; it preserves shape and dtype. -/
def idWhiten : Arr → Arr := fun X => X

/-- Decomposer instance whose scores are the identity and whose ratio vector is
a fixed list, used to instantiate the external collaborator concretely. -/
def pcaConst (rs : List ℚ) : PCAModel := PCAModel.mk (fun Y => Y) (fun _ => rs)

/-- Modelled from the spec: a whitening outcome on degenerate data that
"silently produces NaN" output (spec section 4.2); every entry is non-finite. -/
def whitenNaN : Arr → Arr := fun X => Arr.mk X.shape X.dtype (fun _ => none)

/-- Concrete 1-by-1-by-3 image cube with constant unit data. -/
def cube113 : Arr := Arr.mk [1, 1, 3] Dtype.float64 (fun _ => some 1)

/-- Concrete 1-by-1-by-7 image cube with constant unit data. -/
def cube177 : Arr := Arr.mk [1, 1, 7] Dtype.float64 (fun _ => some 1)

/-- Concrete 2-by-1-by-2 cube: pixel (0,0) is all-zero, pixel (1,0) is (3,4). -/
def cubeZ : Arr :=
  Arr.mk [2, 1, 2] Dtype.float64
    (fun idx =>
      if idx = [1, 0, 0] then some 3 else if idx = [1, 0, 1] then some 4 else some 0)

/-- Concrete 1-by-2-by-2 cube whose band 0 is constant (zero variance) and
whose band 1 varies across the two pixels. -/
def cubeC : Arr :=
  Arr.mk [1, 2, 2] Dtype.float64
    (fun idx =>
      if idx = [0, 0, 1] then some 1 else if idx = [0, 1, 1] then some 2 else some 5)

/-- Concrete 1-by-1-by-2 cube with the single pixel (3,4). -/
def cubeP : Arr :=
  Arr.mk [1, 1, 2] Dtype.float64
    (fun idx => if idx = [0, 0, 0] then some 3 else if idx = [0, 0, 1] then some 4 else some 0)

/-- Concrete 2-D input of shape (2,2) with constant unit data. -/
def cube2D : Arr := Arr.mk [2, 2] Dtype.float64 (fun _ => some 1)

/-! ## Helper lemmas about the embedding -/

theorem astype_shape (d : Dtype) (X : Arr) : (astype d X).shape = X.shape := rfl

theorem astype_dtype (d : Dtype) (X : Arr) : (astype d X).dtype = d := rfl

theorem applyAlongAxis_shape (g : ℕ → (ℕ → F) → ℕ → F) (axis : ℕ) (X : Arr) :
    (applyAlongAxis g axis X).shape = X.shape := rfl

theorem brightNormStage_shape (BN : Bool) (X : Arr) :
    (brightNormStage BN X).shape = X.shape := by
  cases BN
  · rfl
  · simp only [brightNormStage]
    split_ifs <;> rfl

theorem brightNormStage_dtype (BN : Bool) (X : Arr) :
    (brightNormStage BN X).dtype = X.dtype := by
  cases BN
  · rfl
  · simp only [brightNormStage]
    split_ifs <;> rfl

theorem reshape_of_prod_eq {s : List ℕ} {X : Arr} (h : X.shape.prod = s.prod) :
    reshape s X
      = some (Arr.mk s X.dtype (fun idx => X.data (unflat X.shape (flatIdx s idx)))) := by
  unfold reshape
  rw [if_pos h]

/-- Master lemma: under the shape-preservation contracts of the external
whitener and decomposer (spec sections 4.2 and 4.3), `transform` on a 3-D cube
succeeds, and its component cube and variance vector are described explicitly
in terms of the internal pixels-times-bands matrix `X2`. -/
theorem transform_spec (W : Arr → Arr) (P : PCAModel)
    (hW : ∀ Y, (W Y).shape = Y.shape) (hP : ∀ Y, (P.fit_transform Y).shape = Y.shape)
    (n : PyVal) (BN : Bool) (X0 : Arr) (rows cols bands : ℕ)
    (hX : X0.shape = [rows, cols, bands]) :
    ∃ X2,
      reshape [cols * rows, bands] (W (brightNormStage BN (astype Dtype.float32 X0)))
        = some X2 ∧
      X2.shape = [cols * rows, bands] ∧
      X2.dtype = (W (brightNormStage BN (astype Dtype.float32 X0))).dtype ∧
      (transform W P n BN X0).map (fun p => p.1.shape)
        = some [rows, cols, pySliceCount bands (toIndex n)] ∧
      (transform W P n BN X0).map (fun p => p.1.dtype)
        = some (P.fit_transform X2).dtype ∧
      (transform W P n BN X0).map Prod.snd
        = some (cumsum ((P.explained_variance_ratio_ X2).map (fun r => npRound4 r * 100))) := by
  have hXs : (brightNormStage BN (astype Dtype.float32 X0)).shape = [rows, cols, bands] := by
    rw [brightNormStage_shape, astype_shape, hX]
  have hwd : (W (brightNormStage BN (astype Dtype.float32 X0))).shape = [rows, cols, bands] := by
    rw [hW, hXs]
  have hget : (brightNormStage BN (astype Dtype.float32 X0)).shape.get? 2 = some bands := by
    rw [hXs]; rfl
  have hsh3 : shape3 (W (brightNormStage BN (astype Dtype.float32 X0))).shape
      = some (rows, cols, bands) := by
    rw [hwd]; rfl
  have hprod : (W (brightNormStage BN (astype Dtype.float32 X0))).shape.prod
      = ([cols * rows, bands] : List ℕ).prod := by
    rw [hwd]; simp [List.prod_cons]; ring
  have hres := reshape_of_prod_eq hprod
  refine ⟨_, hres, rfl, rfl, ?_, ?_, ?_⟩ <;>
  · set X2 : Arr :=
      Arr.mk [cols * rows, bands]
        (W (brightNormStage BN (astype Dtype.float32 X0))).dtype
        (fun idx =>
          (W (brightNormStage BN (astype Dtype.float32 X0))).data
            (unflat (W (brightNormStage BN (astype Dtype.float32 X0))).shape
              (flatIdx [cols * rows, bands] idx))) with hX2
    have hprod2 : (P.fit_transform X2).shape.prod = ([rows, cols, bands] : List ℕ).prod := by
      rw [hP]
      simp [List.prod_cons]
      ring
    have hres2 := reshape_of_prod_eq hprod2
    simp only [transform, hget, Option.some_bind, hsh3, hres, hres2, Option.map_some']
    try simp [slice3, shape3]

theorem cumsumFrom_length (acc : ℚ) (l : List ℚ) :
    (cumsumFrom acc l).length = l.length := by
  induction l generalizing acc with
  | nil => rfl
  | cons x xs ih => simp [cumsumFrom, ih]

theorem cumsumFrom_getLastD (acc : ℚ) (l : List ℚ) :
    (cumsumFrom acc l).getLastD acc = acc + l.sum := by
  induction l generalizing acc with
  | nil => simp [cumsumFrom]
  | cons x xs ih =>
    rw [cumsumFrom, List.getLastD_cons, ih (acc + x)]
    simp [List.sum_cons]
    ring

theorem cumsumFrom_chain (l : List ℚ) (hl : ∀ x ∈ l, 0 ≤ x) (acc : ℚ) :
    List.Chain' (fun a b => a ≤ b) (cumsumFrom acc l) := by
  induction l generalizing acc with
  | nil => simp [cumsumFrom]
  | cons x xs ih =>
    have hxs : ∀ y ∈ xs, 0 ≤ y := fun y hy => hl y (List.mem_cons_of_mem _ hy)
    have hchain := ih hxs (acc + x)
    cases xs with
    | nil => simp [cumsumFrom]
    | cons y ys =>
      simp only [cumsumFrom] at hchain ⊢
      rw [List.chain'_cons]
      exact ⟨by have hy : 0 ≤ y := hl y (by simp); linarith, hchain⟩

theorem roundHalfEven_sub_le (x : ℚ) : |(roundHalfEven x : ℚ) - x| ≤ 1 / 2 := by
  unfold roundHalfEven
  have h0 : (⌊x⌋ : ℚ) ≤ x := Int.floor_le x
  have h1 : x < ⌊x⌋ + 1 := Int.lt_floor_add_one x
  split_ifs <;> push_cast <;> rw [abs_le] <;> constructor <;> linarith

theorem roundHalfEven_nonneg {x : ℚ} (hx : 0 ≤ x) : 0 ≤ roundHalfEven x := by
  unfold roundHalfEven
  have h0 : (0 : ℤ) ≤ ⌊x⌋ := Int.floor_nonneg.mpr hx
  split_ifs <;> omega

theorem roundHalfEven_intCast (n : ℤ) : roundHalfEven ((n : ℤ) : ℚ) = n := by
  unfold roundHalfEven
  rw [Int.floor_intCast]
  rw [if_pos (by norm_num)]

theorem npRound4_err (x : ℚ) : |npRound4 x - x| ≤ 1 / 20000 := by
  unfold npRound4
  have h := roundHalfEven_sub_le (x * 10 ^ 4)
  rw [abs_le] at h ⊢
  obtain ⟨ha, hb⟩ := h
  constructor <;> [nlinarith; nlinarith]

theorem npRound4_nonneg {x : ℚ} (hx : 0 ≤ x) : 0 ≤ npRound4 x := by
  unfold npRound4
  have h := roundHalfEven_nonneg (x := x * 10 ^ 4) (by positivity)
  have h2 : (0 : ℚ) ≤ (roundHalfEven (x * 10 ^ 4) : ℚ) := by exact_mod_cast h
  positivity

theorem sum_round_err (l : List ℚ) :
    |(l.map (fun r => npRound4 r * 100)).sum - 100 * l.sum| ≤ (l.length : ℚ) * (1 / 200) := by
  induction l with
  | nil => simp
  | cons x xs ih =>
    simp only [List.map_cons, List.sum_cons, List.length_cons]
    have hx := npRound4_err x
    have h1 : |(npRound4 x - x) * 100| ≤ 1 / 200 := by
      rw [abs_mul, abs_of_nonneg (by norm_num : (0 : ℚ) ≤ 100)]
      nlinarith [abs_nonneg (npRound4 x - x)]
    have h2 := abs_add ((npRound4 x - x) * 100)
      ((xs.map (fun r => npRound4 r * 100)).sum - 100 * xs.sum)
    have heq : npRound4 x * 100 + (xs.map (fun r => npRound4 r * 100)).sum
        - 100 * (x + xs.sum)
        = (npRound4 x - x) * 100
          + ((xs.map (fun r => npRound4 r * 100)).sum - 100 * xs.sum) := by ring
    rw [heq]
    push_cast
    calc |(npRound4 x - x) * 100
          + ((xs.map (fun r => npRound4 r * 100)).sum - 100 * xs.sum)|
        ≤ |(npRound4 x - x) * 100|
          + |(xs.map (fun r => npRound4 r * 100)).sum - 100 * xs.sum| := h2
      _ ≤ 1 / 200 + (xs.length : ℚ) * (1 / 200) := by exact add_le_add h1 ih
      _ = ((xs.length : ℚ) + 1) * (1 / 200) := by ring

theorem npSumSq_eq (n : ℕ) (r : ℕ → F) (x : ℕ → ℝ) (h : ∀ k, k < n → r k = some (x k)) :
    npSumSq r n = some (∑ k ∈ Finset.range n, x k ^ 2) := by
  induction n with
  | zero => simp [npSumSq]
  | succ m ih =>
    have hm : ∀ k, k < m → r k = some (x k) := fun k hk => h k (Nat.lt_succ_of_lt hk)
    rw [npSumSq, ih hm, h m (Nat.lt_succ_self m)]
    simp only [fMul, fAdd, Finset.sum_range_succ, Option.some.injEq]
    ring

theorem fSqrt_some_of_nonneg {a : ℝ} (ha : 0 ≤ a) : fSqrt (some a) = some (Real.sqrt a) := by
  show (if a < 0 then none else some (Real.sqrt a)) = some (Real.sqrt a)
  rw [if_neg (not_lt.mpr ha)]

theorem normPix_eq (n : ℕ) (r : ℕ → F) (x : ℕ → ℝ) (h : ∀ k, k < n → r k = some (x k))
    (hnz : (∑ k ∈ Finset.range n, x k ^ 2) ≠ 0) (b : ℕ) (hb : b < n) :
    normPix n r b = some (x b / Real.sqrt (∑ k ∈ Finset.range n, x k ^ 2)) := by
  have hsum : 0 ≤ ∑ k ∈ Finset.range n, x k ^ 2 :=
    Finset.sum_nonneg (fun k _ => sq_nonneg (x k))
  have hpos : 0 < ∑ k ∈ Finset.range n, x k ^ 2 := lt_of_le_of_ne hsum (Ne.symm hnz)
  have hs : Real.sqrt (∑ k ∈ Finset.range n, x k ^ 2) ≠ 0 :=
    ne_of_gt (Real.sqrt_pos.mpr hpos)
  unfold normPix
  rw [npSumSq_eq n r x h, fSqrt_some_of_nonneg hsum, h b hb]
  simp only [fDiv]
  rw [if_neg hs]

theorem normPix_zero (n : ℕ) (r : ℕ → F) (h : ∀ k, k < n → r k = some 0) (b : ℕ)
    (hb : b < n) : normPix n r b = none := by
  have hsum : npSumSq r n = some 0 := by
    have h0 := npSumSq_eq n r (fun _ => 0) (by intro k hk; simpa using h k hk)
    simpa using h0
  unfold normPix
  rw [hsum, h b hb]
  simp [fSqrt, fDiv, Real.sqrt_zero]

theorem brightNormStage_data_3d (X : Arr) (rows cols bands : ℕ)
    (hX : X.shape = [rows, cols, bands]) (i j b : ℕ) :
    (brightNormStage true X).data [i, j, b]
      = normPix bands (fun k => X.data [i, j, k]) b := by
  unfold brightNormStage
  rw [if_pos rfl]
  have h3 : X.shape.length = 3 := by rw [hX]; rfl
  have h2 : ¬ (applyAlongAxis normPix 2 X).shape.length = 2 := by
    rw [applyAlongAxis_shape, hX]; simp
  rw [if_pos h3, if_neg h2]
  show normPix (X.shape.getD 2 0) (fun k => X.data ([i, j, b].set 2 k)) ([i, j, b].getD 2 0)
      = normPix bands (fun k => X.data [i, j, k]) b
  rw [hX]
  rfl

theorem brightNormStage_data_2d (X : Arr) (n m : ℕ) (hX : X.shape = [n, m]) (b j : ℕ) :
    (brightNormStage true X).data [b, j]
      = normPix n (fun k => X.data [k, j]) b := by
  unfold brightNormStage
  rw [if_pos rfl]
  have h3 : ¬ X.shape.length = 3 := by rw [hX]; simp
  have h2 : X.shape.length = 2 := by rw [hX]; rfl
  rw [if_neg h3, if_pos h2]
  show normPix (X.shape.getD 0 0) (fun k => X.data ([b, j].set 0 k)) ([b, j].getD 0 0)
      = normPix n (fun k => X.data [k, j]) b
  rw [hX]
  rfl

/-! ## Claim theorems -/

/-- C1: for every valid image cube, the cumulative-variance vector returned by
`transform` is the running sum over ALL bands of the per-component
explained-variance ratios, each first rounded to 4 decimal places and
multiplied by 100 before summation, and consequently its length equals the
full band count even when n_components < bands.  `X2` is the internal
pixels-times-bands matrix handed to the decomposer; the external whitener and
decomposer preserve shapes and the decomposer yields one ratio per band
(spec sections 4.2-4.3). -/
theorem C1_cumulative_variance_running_sum (W : Arr → Arr) (P : PCAModel)
    (hW : ∀ Y, (W Y).shape = Y.shape) (hP : ∀ Y, (P.fit_transform Y).shape = Y.shape)
    (n : PyVal) (BN : Bool) (X0 : Arr) (rows cols bands : ℕ)
    (hX : X0.shape = [rows, cols, bands])
    (hlen : ∀ Y, Y.shape = [cols * rows, bands] →
      (P.explained_variance_ratio_ Y).length = bands)
    (X2 : Arr)
    (hX2 : reshape [cols * rows, bands]
      (W (brightNormStage BN (astype Dtype.float32 X0))) = some X2) :
    (transform W P n BN X0).map Prod.snd
        = some (cumsum ((P.explained_variance_ratio_ X2).map (fun r => npRound4 r * 100)))
      ∧ (transform W P n BN X0).map (fun p => p.2.length) = some bands := by
  obtain ⟨Y2, hres, hsh2, -, -, -, hsnd⟩ :=
    transform_spec W P hW hP n BN X0 rows cols bands hX
  rw [hres] at hX2
  have hYX : Y2 = X2 := Option.some.inj hX2
  subst hYX
  refine ⟨hsnd, ?_⟩
  cases htr : transform W P n BN X0 with
  | none => rw [htr] at hsnd; simp at hsnd
  | some p =>
    rw [htr] at hsnd
    simp only [Option.map_some'] at hsnd ⊢
    rw [Option.some.inj hsnd]
    rw [cumsum, cumsumFrom_length, List.length_map, hlen Y2 hsh2]

/-- Witness for C1: identity collaborators, ratio vector (1/2, 1/2) on a
1-by-1-by-2 cube with n_components = 1: the variance vector is the full-length
running sum (50, 100), of length 2 although only 1 band is retained. -/
theorem C1_witness :
    (transform idWhiten (pcaConst [1/2, 1/2]) (PyVal.int 1) false cubeP).map Prod.snd
        = some [50, 100]
      ∧ (transform idWhiten (pcaConst [1/2, 1/2]) (PyVal.int 1) false cubeP).map
          (fun p => p.2.length) = some 2 := by
  have h := C1_cumulative_variance_running_sum idWhiten (pcaConst [1/2, 1/2])
    (fun Y => rfl) (fun Y => rfl) (PyVal.int 1) false cubeP 1 1 2 rfl
    (fun Y hY => rfl) _ rfl
  refine ⟨?_, h.2⟩
  rw [h.1]
  have hr : npRound4 (1/2) = 1/2 := by
    unfold npRound4
    rw [show ((1 : ℚ)/2 * 10 ^ 4) = ((5000 : ℤ) : ℚ) by norm_num, roundHalfEven_intCast]
    norm_num
  simp only [pcaConst, List.map_cons, List.map_nil, hr, cumsum, cumsumFrom,
    Option.some.injEq]
  norm_num

/-- C2 counterexample: on a 3-band cube, n_components = 4 = bands + 1 does not
fail with any error: transform returns a component cube, silently clamped to
3 bands; n_components = 0 likewise succeeds and returns a 0-band cube.  This
refutes the claimed ConfigurationError. -/
theorem C2_counterexample :
    (transform idWhiten (pcaConst [1, 0, 0]) (PyVal.int 4) false cube113).map
        (fun p => p.1.shape) = some [1, 1, 3]
      ∧ (transform idWhiten (pcaConst [1, 0, 0]) (PyVal.int 0) false cube113).isSome = true
      ∧ (transform idWhiten (pcaConst [1, 0, 0]) (PyVal.int 0) false cube113).map
          (fun p => p.1.shape) = some [1, 1, 0] := by
  exact ⟨rfl, rfl, rfl⟩

/-- C2 amended: `transform` performs no validation of n_components; for every
integer n it succeeds and returns a component cube whose band count follows
Python slice clamping (`pySliceCount`): values above bands clamp to bands,
0 yields an empty cube, negative values drop bands from the end.  No
configuration error is ever raised. -/
theorem C2_amended_silent_clamp (W : Arr → Arr) (P : PCAModel)
    (hW : ∀ Y, (W Y).shape = Y.shape) (hP : ∀ Y, (P.fit_transform Y).shape = Y.shape)
    (BN : Bool) (X0 : Arr) (rows cols bands : ℕ) (hX : X0.shape = [rows, cols, bands])
    (n : ℤ) :
    (transform W P (PyVal.int n) BN X0).map (fun p => p.1.shape)
      = some [rows, cols, pySliceCount bands n] := by
  obtain ⟨-, -, -, -, hsh, -, -⟩ :=
    transform_spec W P hW hP (PyVal.int n) BN X0 rows cols bands hX
  exact hsh

/-- Witness for C2 amended: n_components = -1 on a 3-band cube silently yields
a 2-band cube. -/
theorem C2_witness :
    (transform idWhiten (pcaConst [1, 0, 0]) (PyVal.int (-1)) false cube113).map
      (fun p => p.1.shape) = some [1, 1, 2] := by
  have h := C2_amended_silent_clamp idWhiten (pcaConst [1, 0, 0]) (fun Y => rfl)
    (fun Y => rfl) false cube113 1 1 3 rfl (-1)
  exact h

/-- C3: the default does NOT retain the full band count, contradicting the
script usage text (line 19 of the source).  The command-line driver without
`-c` sets the argument to the argparse default `False`, which `is not None`,
so the full-band fallback branch is dead; `False` then slices as 0 and the
returned cube keeps 0 of the 3 bands.  The class default n_components = 1
keeps 1 band.  Neither equals the full band count 3. -/
theorem C3_default_not_full_band_count :
    cliNComponents (none : Option ℤ) 3 = PyVal.bool false
      ∧ (transform idWhiten (pcaConst [1, 0, 0]) (cliNComponents (none : Option ℤ) 3)
          false cube113).map (fun p => p.1.shape) = some [1, 1, 0]
      ∧ (transform idWhiten (pcaConst [1, 0, 0]) init_n_components_default
          false cube113).map (fun p => p.1.shape) = some [1, 1, 1]
      ∧ ¬ (some [1, 1, 0] = some ([1, 1, 3] : List ℕ))
      ∧ ¬ (some [1, 1, 1] = some ([1, 1, 3] : List ℕ)) := by
  exact ⟨rfl, rfl, rfl, by decide, by decide⟩

/-- C5: for every 3-D input cube of shape (rows, cols, bands) and every valid
n_components with 1 ≤ n ≤ bands, the component cube returned by `transform`
has shape exactly (rows, cols, n), assuming the external whitener and
decomposer preserve shapes (spec sections 4.2-4.3). -/
theorem C5_component_cube_shape (W : Arr → Arr) (P : PCAModel)
    (hW : ∀ Y, (W Y).shape = Y.shape) (hP : ∀ Y, (P.fit_transform Y).shape = Y.shape)
    (BN : Bool) (X0 : Arr) (rows cols bands : ℕ) (hX : X0.shape = [rows, cols, bands])
    (n : ℕ) (h1 : 1 ≤ n) (h2 : n ≤ bands) :
    (transform W P (PyVal.int n) BN X0).map (fun p => p.1.shape)
      = some [rows, cols, n] := by
  obtain ⟨-, -, -, -, hsh, -, -⟩ :=
    transform_spec W P hW hP (PyVal.int n) BN X0 rows cols bands hX
  rw [hsh]
  rw [show toIndex (PyVal.int (n : ℤ)) = ((n : ℕ) : ℤ) from rfl]
  have hn : pySliceCount bands ((n : ℕ) : ℤ) = n := by
    unfold pySliceCount
    rw [if_neg (by omega)]
    omega
  rw [hn]

/-- Witness for C5: identity collaborators, 1-by-1-by-3 cube, n = 2. -/
theorem C5_witness :
    (transform idWhiten (pcaConst [1, 0, 0]) (PyVal.int 2) false cube113).map
      (fun p => p.1.shape) = some [1, 1, 2] := by
  exact C5_component_cube_shape idWhiten (pcaConst [1, 0, 0]) (fun Y => rfl)
    (fun Y => rfl) false cube113 1 1 3 rfl 2 (by omega) (by omega)

/-- C8 counterexample: on a cube whose band 0 is constant (zero variance),
with the whitening stage producing non-finite output — the spec's ill-defined
whitening on a singular noise covariance — `transform` raises no error at
all: it succeeds and the returned component cube carries the NaN data through
to the caller.  Silent NaN pass-through instead of a DegenerateDataError. -/
theorem C8_counterexample :
    (transform whitenNaN (pcaConst [1, 0]) (PyVal.int 2) false cubeC).isSome = true
      ∧ (transform whitenNaN (pcaConst [1, 0]) (PyVal.int 2) false cubeC).map
          (fun p => p.1.data [0, 0, 0]) = some none := by
  exact ⟨rfl, rfl⟩

/-- C8 amended: the repository code contains no degeneracy or data-quality
check anywhere in `transform`: for every 3-D input and every whitener, however
degenerate the data, the transform succeeds and returns whatever the whitening
stage produced (after decomposition and reshaping); it cannot raise a
DegenerateDataError. -/
theorem C8_amended_no_degeneracy_check (W : Arr → Arr) (P : PCAModel)
    (hW : ∀ Y, (W Y).shape = Y.shape) (hP : ∀ Y, (P.fit_transform Y).shape = Y.shape)
    (n : PyVal) (BN : Bool) (X0 : Arr) (rows cols bands : ℕ)
    (hX : X0.shape = [rows, cols, bands]) :
    (transform W P n BN X0).isSome = true := by
  obtain ⟨-, -, -, -, hsh, -, -⟩ := transform_spec W P hW hP n BN X0 rows cols bands hX
  cases htr : transform W P n BN X0 with
  | none => rw [htr] at hsh; simp at hsh
  | some p => rfl

/-- Witness for C8 amended: a concrete 3-D cube with a constant band still
yields a successful transform under identity collaborators. -/
theorem C8_witness :
    (transform idWhiten (pcaConst [1, 0]) (PyVal.int 2) false cubeC).isSome = true := by
  exact C8_amended_no_degeneracy_check idWhiten (pcaConst [1, 0]) (fun Y => rfl)
    (fun Y => rfl) (PyVal.int 2) false cubeC 1 2 2 rfl

/-- C10: `transform` casts its input to float32 first (line 79), so for every
input cube, whatever its dtype, the returned component cube carries float32,
never the input precision; the external whitener and decomposer are assumed to
preserve shapes and the dtype of the data handed to them (they are linear maps
on the array data, spec sections 4.2-4.3). -/
theorem C10_float32_cast (W : Arr → Arr) (P : PCAModel)
    (hW : ∀ Y, (W Y).shape = Y.shape) (hP : ∀ Y, (P.fit_transform Y).shape = Y.shape)
    (hdW : ∀ Y, (W Y).dtype = Y.dtype) (hdP : ∀ Y, (P.fit_transform Y).dtype = Y.dtype)
    (n : PyVal) (BN : Bool) (X0 : Arr) (rows cols bands : ℕ)
    (hX : X0.shape = [rows, cols, bands]) :
    (transform W P n BN X0).map (fun p => p.1.dtype) = some Dtype.float32 := by
  obtain ⟨X2, -, -, hdt, -, hmapdt, -⟩ := transform_spec W P hW hP n BN X0 rows cols bands hX
  rw [hmapdt, hdP, hdt, hdW, brightNormStage_dtype, astype_dtype]

/-- Witness for C10: a float64 input cube comes back as float32. -/
theorem C10_witness :
    cube113.dtype = Dtype.float64
      ∧ (transform idWhiten (pcaConst [1, 0, 0]) (PyVal.int 3) false cube113).map
          (fun p => p.1.dtype) = some Dtype.float32 := by
  refine ⟨rfl, ?_⟩
  exact C10_float32_cast idWhiten (pcaConst [1, 0, 0]) (fun Y => rfl) (fun Y => rfl)
    (fun Y => rfl) (fun Y => rfl) (PyVal.int 3) false cube113 1 1 3 rfl

/-- Evaluation helper: the variance vector of the concrete 1-by-1-by-2 run
with ratios (1/2, 1/2) is (50, 100). -/
theorem cubeP_var_eval :
    (transform idWhiten (pcaConst [1/2, 1/2]) (PyVal.int 1) false cubeP).map Prod.snd
      = some [50, 100] := by
  obtain ⟨X2, -, -, -, -, -, hsnd⟩ := transform_spec idWhiten (pcaConst [1/2, 1/2])
    (fun Y => rfl) (fun Y => rfl) (PyVal.int 1) false cubeP 1 1 2 rfl
  rw [hsnd]
  have hr : npRound4 (1/2) = 1/2 := by
    unfold npRound4
    rw [show ((1 : ℚ)/2 * 10 ^ 4) = ((5000 : ℤ) : ℚ) by norm_num, roundHalfEven_intCast]
    norm_num
  simp only [pcaConst, List.map_cons, List.map_nil, hr, cumsum, cumsumFrom,
    Option.some.injEq]
  norm_num

/-- C4 counterexample: with seven equal explained-variance ratios 1/7 — a valid
decomposer output: nonnegative, non-increasing, summing to exactly 1 — the
final cumulative-variance entry returned by transform is 100.03, which is NOT
within ±0.01 of 100.0: rounding each ratio to 4 decimals before summation
accumulates up to 0.005 per band.  The claimed tolerance fails as stated. -/
theorem C4_counterexample :
    (List.replicate 7 ((1 : ℚ)/7)).sum = 1
      ∧ (transform idWhiten (pcaConst (List.replicate 7 ((1 : ℚ)/7))) (PyVal.int 7) false
          cube177).map (fun p => p.2.getLastD 0) = some (10003/100)
      ∧ ¬ |(10003 : ℚ)/100 - 100| ≤ 1/100 := by
  refine ⟨by norm_num, ?_, ?_⟩
  · obtain ⟨X2, -, -, -, -, -, hsnd⟩ := transform_spec idWhiten
      (pcaConst (List.replicate 7 ((1 : ℚ)/7))) (fun Y => rfl) (fun Y => rfl)
      (PyVal.int 7) false cube177 1 1 7 rfl
    cases htr : transform idWhiten (pcaConst (List.replicate 7 ((1 : ℚ)/7))) (PyVal.int 7)
        false cube177 with
    | none => rw [htr] at hsnd; simp at hsnd
    | some p =>
      rw [htr] at hsnd
      simp only [Option.map_some'] at hsnd ⊢
      rw [Option.some.inj hsnd]
      rw [show (pcaConst (List.replicate 7 ((1 : ℚ)/7))).explained_variance_ratio_ X2
          = List.replicate 7 ((1 : ℚ)/7) from rfl]
      have hfl : ⌊((1 : ℚ)/7 * 10 ^ 4)⌋ = 1428 := by
        rw [Int.floor_eq_iff]
        constructor <;> norm_num
      have hr : npRound4 ((1 : ℚ)/7) = 1429/10000 := by
        unfold npRound4 roundHalfEven
        rw [hfl]
        rw [if_neg (by norm_num), if_pos (by norm_num)]
        norm_num
      rw [cumsum, cumsumFrom_getLastD, List.map_replicate, hr, List.sum_replicate]
      norm_num
  · rw [show (10003 : ℚ)/100 - 100 = 3/100 by norm_num,
      abs_of_nonneg (by norm_num : (0 : ℚ) ≤ 3/100)]
    norm_num

/-- C4 amended: for every valid input on which transform succeeds, the
cumulative-variance sequence is monotonically non-decreasing, and its final
element lies within bands * 0.005 of 100.0 — the worst-case error of rounding
each ratio to 4 decimals before summation — but not in general within ±0.01
(see the counterexample).  The decomposer ratios are nonnegative, sum to 1 and
number one per band (spec 4.3). -/
theorem C4_amended_monotone_and_bounded (W : Arr → Arr) (P : PCAModel)
    (hW : ∀ Y, (W Y).shape = Y.shape) (hP : ∀ Y, (P.fit_transform Y).shape = Y.shape)
    (n : PyVal) (BN : Bool) (X0 : Arr) (rows cols bands : ℕ)
    (hX : X0.shape = [rows, cols, bands])
    (hnn : ∀ Y, Y.shape = [cols * rows, bands] →
      ∀ r ∈ P.explained_variance_ratio_ Y, 0 ≤ r)
    (hsum : ∀ Y, Y.shape = [cols * rows, bands] →
      (P.explained_variance_ratio_ Y).sum = 1)
    (hlen : ∀ Y, Y.shape = [cols * rows, bands] →
      (P.explained_variance_ratio_ Y).length = bands) :
    ∀ v, (transform W P n BN X0).map Prod.snd = some v →
      List.Chain' (fun a b => a ≤ b) v
        ∧ |v.getLastD 0 - 100| ≤ (bands : ℚ) * (1 / 200) := by
  intro v hv
  obtain ⟨X2, hres, hsh2, -, -, -, hsnd⟩ :=
    transform_spec W P hW hP n BN X0 rows cols bands hX
  rw [hv] at hsnd
  have hveq := Option.some.inj hsnd
  subst hveq
  constructor
  · apply cumsumFrom_chain
    intro y hy
    obtain ⟨r, hr, hry⟩ := List.mem_map.mp hy
    rw [← hry]
    exact mul_nonneg (npRound4_nonneg (hnn X2 hsh2 r hr)) (by norm_num)
  · rw [cumsum, cumsumFrom_getLastD, zero_add]
    have herr := sum_round_err (P.explained_variance_ratio_ X2)
    rw [hsum X2 hsh2, hlen X2 hsh2] at herr
    simpa using herr

/-- Witness for C4 amended: ratios (1/2, 1/2) on a 1-by-1-by-2 cube yield the
non-decreasing variance vector (50, 100) whose last entry is within
2 * 0.005 of 100. -/
theorem C4_witness :
    List.Chain' (fun a b => a ≤ b) ([50, 100] : List ℚ)
      ∧ |(([50, 100] : List ℚ).getLastD 0) - 100| ≤ (2 : ℚ) * (1 / 200) := by
  exact C4_amended_monotone_and_bounded idWhiten (pcaConst [1/2, 1/2]) (fun Y => rfl)
    (fun Y => rfl) (PyVal.int 1) false cubeP 1 1 2 rfl
    (by intro Y hY r hr
        simp only [pcaConst] at hr
        rcases List.mem_cons.mp hr with h | h
        · rw [h]; norm_num
        · rcases List.mem_cons.mp h with h2 | h2
          · rw [h2]; norm_num
          · simp at h2)
    (by intro Y hY
        show ([1/2, 1/2] : List ℚ).sum = 1
        norm_num)
    (by intro Y hY; rfl)
    [50, 100] cubeP_var_eval

/-- C6: the brightness-normalization stage is a function of the flag: when it
is not set the cube passes through unchanged; when it is set, every pixel
vector with finite entries and nonzero norm is replaced entrywise by
r / ||r||_2 where ||r||_2 is the square root of the sum of the squared band
values. -/
theorem C6_brightness_normalization :
    (∀ X : Arr, brightNormStage false X = X)
      ∧ (∀ (X : Arr) (rows cols bands : ℕ), X.shape = [rows, cols, bands] →
          ∀ (x : ℕ → ℝ) (i j : ℕ), (∀ k, k < bands → X.data [i, j, k] = some (x k)) →
            (∑ k ∈ Finset.range bands, x k ^ 2) ≠ 0 →
            ∀ b, b < bands →
              (brightNormStage true X).data [i, j, b]
                = some (x b / Real.sqrt (∑ k ∈ Finset.range bands, x k ^ 2))) := by
  constructor
  · intro X
    rfl
  · intro X rows cols bands hX x i j hfin hnz b hb
    rw [brightNormStage_data_3d X rows cols bands hX i j b]
    exact normPix_eq bands _ x hfin hnz b hb

/-- Witness for C6: the stage is the identity on a concrete cube when the flag
is off, and with the flag on the pixel (3,4) becomes (3,4)/sqrt(3^2+4^2) at
band 0. -/
theorem C6_witness :
    brightNormStage false cubeP = cubeP
      ∧ (brightNormStage true cubeP).data [0, 0, 0]
          = some (3 / Real.sqrt ((3 : ℝ) ^ 2 + 4 ^ 2)) := by
  obtain ⟨h1, h2⟩ := C6_brightness_normalization
  refine ⟨h1 cubeP, ?_⟩
  have hfin : ∀ k, k < 2 → cubeP.data [0, 0, k]
      = some ((fun k => if k = 0 then (3 : ℝ) else 4) k) := by
    intro k hk
    interval_cases k <;> rfl
  have hnz : (∑ k ∈ Finset.range 2, ((fun k => if k = 0 then (3 : ℝ) else 4) k) ^ 2) ≠ 0 := by
    rw [Finset.sum_range_succ, Finset.sum_range_one]
    norm_num
  have h := h2 cubeP 1 1 2 rfl (fun k => if k = 0 then (3 : ℝ) else 4) 0 0 hfin hnz 0
    (by omega)
  rw [h, Finset.sum_range_succ, Finset.sum_range_one]
  norm_num

/-- C7 amended: a pixel whose band values are all zero is assigned the NaN
sentinel by brightness normalization (0.0 divided by 0.0) rather than raising,
and the transform still completes on such inputs; however, contrary to the
claim, no count of affected pixels is reported to the caller — see the
counterexample. -/
theorem C7_amended_zero_pixel_sentinel :
    (∀ (X : Arr) (rows cols bands : ℕ), X.shape = [rows, cols, bands] →
        ∀ i j, (∀ k, k < bands → X.data [i, j, k] = some 0) →
          ∀ b, b < bands → (brightNormStage true X).data [i, j, b] = none)
      ∧ (∀ (W : Arr → Arr) (P : PCAModel), (∀ Y, (W Y).shape = Y.shape) →
          (∀ Y, (P.fit_transform Y).shape = Y.shape) →
          ∀ (n : PyVal) (X0 : Arr) (rows cols bands : ℕ),
            X0.shape = [rows, cols, bands] →
            (transform W P n true X0).isSome = true) := by
  constructor
  · intro X rows cols bands hX i j hz b hb
    rw [brightNormStage_data_3d X rows cols bands hX i j b]
    exact normPix_zero bands _ hz b hb
  · intro W P hW hP n X0 rows cols bands hX
    obtain ⟨-, -, -, -, hsh, -, -⟩ := transform_spec W P hW hP n true X0 rows cols bands hX
    cases htr : transform W P n true X0 with
    | none => rw [htr] at hsh; simp at hsh
    | some p => rfl

/-- Witness for C7 amended: on the cube whose pixel (0,0) is all-zero, band 1
of that pixel becomes the NaN sentinel and the transform still succeeds. -/
theorem C7_witness :
    (brightNormStage true cubeZ).data [0, 0, 1] = none
      ∧ (transform idWhiten (pcaConst [1, 0]) (PyVal.int 2) true cubeZ).isSome = true := by
  obtain ⟨h1, h2⟩ := C7_amended_zero_pixel_sentinel
  constructor
  · exact h1 cubeZ 2 1 2 rfl 0 0 (by intro k hk; interval_cases k <;> rfl) 1 (by omega)
  · exact h2 idWhiten (pcaConst [1, 0]) (fun Y => rfl) (fun Y => rfl) (PyVal.int 2) cubeZ
      2 1 2 rfl

/-- C7 counterexample, refuting the reporting clause of the claim: on the cube
whose pixel (0,0) is all-zero (affected-pixel count 1), the caller-visible
output of transform is the component cube paired with the variance vector
(100, 100); the affected pixel holds the NaN sentinel in the cube, and the
count 1 appears nowhere in the returned variance report — the return value has
no further components, so no affected-pixel count is reported to the caller. -/
theorem C7_counterexample :
    (transform idWhiten (pcaConst [1, 0]) (PyVal.int 2) true cubeZ).map Prod.snd
        = some [100, 100]
      ∧ ((1 : ℚ) ∈ ([100, 100] : List ℚ) → False)
      ∧ (brightNormStage true cubeZ).data [0, 0, 0] = none := by
  refine ⟨?_, ?_, ?_⟩
  · obtain ⟨X2, -, -, -, -, -, hsnd⟩ := transform_spec idWhiten (pcaConst [1, 0])
      (fun Y => rfl) (fun Y => rfl) (PyVal.int 2) true cubeZ 2 1 2 rfl
    rw [hsnd]
    have h1 : npRound4 (1 : ℚ) = 1 := by
      unfold npRound4
      rw [show ((1 : ℚ) * 10 ^ 4) = ((10000 : ℤ) : ℚ) by norm_num, roundHalfEven_intCast]
      norm_num
    have h0 : npRound4 (0 : ℚ) = 0 := by
      unfold npRound4
      rw [show ((0 : ℚ) * 10 ^ 4) = ((0 : ℤ) : ℚ) by norm_num, roundHalfEven_intCast]
      norm_num
    simp only [pcaConst, List.map_cons, List.map_nil, h1, h0, cumsum, cumsumFrom,
      Option.some.injEq]
    norm_num
  · intro h
    rcases List.mem_cons.mp h with h | h
    · norm_num at h
    · rcases List.mem_cons.mp h with h2 | h2
      · norm_num at h2
      · simp at h2
  · rw [brightNormStage_data_3d cubeZ 2 1 2 rfl 0 0 0]
    exact normPix_zero 2 _ (by intro k hk; interval_cases k <;> rfl) 0 (by omega)

/-- C9 counterexample: a 2-D input with brightness normalization requested does
NOT complete: transform returns no result at all (the band-count read
X.shape[2] of line 93 is an IndexError on a 2-D array), refuting the claim
that the pipeline completes and returns a result on 2-D inputs. -/
theorem C9_counterexample :
    transform idWhiten (pcaConst [1]) (PyVal.int 1) true cube2D = none := rfl

/-- C9 amended: for a 2-D input the normalization stage itself does normalize
every pixel along the band axis (axis 0), exactly as for 3-D cubes, but the
transform as a whole then fails — it returns no result for any 2-D input —
rather than completing. -/
theorem C9_amended_2d_normalizes_but_fails :
    (∀ (X : Arr) (n m : ℕ), X.shape = [n, m] →
        ∀ (x : ℕ → ℝ) (j : ℕ), (∀ k, k < n → X.data [k, j] = some (x k)) →
          (∑ k ∈ Finset.range n, x k ^ 2) ≠ 0 →
          ∀ b, b < n →
            (brightNormStage true X).data [b, j]
              = some (x b / Real.sqrt (∑ k ∈ Finset.range n, x k ^ 2)))
      ∧ (∀ (W : Arr → Arr) (P : PCAModel) (nc : PyVal) (BN : Bool) (X0 : Arr) (n m : ℕ),
          X0.shape = [n, m] → transform W P nc BN X0 = none) := by
  constructor
  · intro X n m hX x j hfin hnz b hb
    rw [brightNormStage_data_2d X n m hX b j]
    exact normPix_eq n _ x hfin hnz b hb
  · intro W P nc BN X0 n m hX
    have hget : (brightNormStage BN (astype Dtype.float32 X0)).shape.get? 2 = none := by
      rw [brightNormStage_shape, astype_shape, hX]
      rfl
    simp only [transform, hget, Option.none_bind]

/-- Witness for C9 amended: on the concrete 2-D input, pixel column 0 is
normalized along axis 0 (each unit entry becomes 1/sqrt(2)), and the transform
returns none. -/
theorem C9_witness :
    (brightNormStage true cube2D).data [0, 0] = some (1 / Real.sqrt 2)
      ∧ transform idWhiten (pcaConst [1]) (PyVal.int 1) false cube2D = none := by
  obtain ⟨h1, h2⟩ := C9_amended_2d_normalizes_but_fails
  constructor
  · have h := h1 cube2D 2 2 rfl (fun _ => 1) 0 (by intro k hk; rfl)
      (by rw [Finset.sum_range_succ, Finset.sum_range_one]; norm_num) 0 (by omega)
    rw [h, Finset.sum_range_succ, Finset.sum_range_one]
    norm_num
  · exact h2 idWhiten (pcaConst [1]) (PyVal.int 1) false cube2D 2 2 rfl

end MNF
